import Mathlib

/-! Verification development for the Shiptivitas API server (`src/server.js`).

The file shallowly embeds the PUT `/api/v1/clients/:id` reorder handler and its
two validators.  JavaScript numbers that flow through this code are integers in
every reachable run (JSON bodies cannot encode `NaN` or `Infinity`, and priority
values of interest are integers), so numbers are modelled as `Int`.  `parseInt`
of a non-numeric path id yields `NaN`, modelled as `none : Option Int`.  The
SQLite table is modelled as a `List Client`; each
`update clients set ... where id = ?` statement is an `Assignment` applied to
every row with a matching id, in program order.
-/

namespace Shiptivitas

/-- A row of the `clients` table: id, status, priority, plus one opaque
descriptive field standing for the columns the handler never touches
(name, description, ...). -/
structure Client where
  id : Int
  status : String
  priority : Int
  name : String
  deriving DecidableEq, Repr

/-- One SQL update statement issued by the handler:
`update clients set [status = ?,] priority = ? where id = ?`.
`newStatus := none` models a priority-only update. -/
structure Assignment where
  targetId : Int
  newStatus : Option String
  newPriority : Int
  deriving DecidableEq, Repr

/-- Effect of one update statement on one row. -/
def stepClient (c : Client) (a : Assignment) : Client :=
  if c.id = a.targetId then
    { c with status := a.newStatus.getD c.status, priority := a.newPriority }
  else c

/-- Effect of one update statement on the whole table. -/
def applyAssign (db : List Client) (a : Assignment) : List Client :=
  db.map (fun c => stepClient c a)

/-- Run a list of update statements against the table, in order. -/
def applyAssigns (db : List Client) (ws : List Assignment) : List Client :=
  ws.foldl applyAssign db

/-- The cumulative effect of a list of update statements on a single row. -/
def applyToClient (c : Client) (ws : List Assignment) : Client :=
  ws.foldl stepClient c

/-- Insertion step of the stable sort modelling
`array.sort((a, b) => a.priority - b.priority)`. -/
def insertSorted (c : Client) : List Client → List Client
  | [] => [c]
  | d :: rest =>
    if c.priority ≤ d.priority then c :: d :: rest else d :: insertSorted c rest

/-- Model of `array.sort((a, b) => a.priority - b.priority)` (a stable
ascending sort, as in V8). -/
def sortByPriority : List Client → List Client
  | [] => []
  | c :: rest => insertSorted c (sortByPriority rest)

/-- Model of `list.forEach((c, idx) => update priority = f(idx) where id = c.id)`
starting from index `i`. -/
def rankAssigns (f : Nat → Int) : Nat → List Client → List Assignment
  | _, [] => []
  | i, c :: rest => ⟨c.id, none, f i⟩ :: rankAssigns f (i + 1) rest

/-- `validateId` from `src/server.js` lines 24-47: reject when
`Number.isNaN(id)` (a non-numeric path segment, modelled as `none`), else
reject when no row with that id exists; the pair is the
`(message, long_message)` of the 400 body. -/
def validateId (rawId : Option Int) (db : List Client) : Option (String × String) :=
  match rawId with
  | none => some ("Invalid id provided.", "Id can only be integer.")
  | some i =>
    if db.any (fun c => c.id == i) then none
    else some ("Invalid id provided.", "Cannot find client with that id.")

/-- `validatePriority` from `src/server.js` lines 53-66: the only rejected
input is the number `NaN`.  `Number.isNaN` performs no coercion and a JSON
body cannot encode `NaN`, so every integer-modelled priority passes. -/
def validatePriority (_p : Int) : Option (String × String) :=
  none

/-- Model of `clients.filter(c => c.status === s && c.id !== excludedId)`
(`src/server.js` lines 140 and 157). -/
def swimlane (clients : List Client) (s : String) (excludedId : Int) : List Client :=
  clients.filter (fun c => c.status == s && c.id != excludedId)

/-- The priority written for the member at index `i` of the sorted destination
lane: `let p = idx + 1; if (p >= newPriority) p++` (lines 166-169). -/
def insRank (newPriority : Int) (i : Nat) : Int :=
  if (i : Int) + 1 ≥ newPriority then (i : Int) + 2 else (i : Int) + 1

/-- Source-lane compaction writes (lines 157-161): sort the vacated lane by
priority and write dense ranks 1, 2, 3, ... -/
def compactionAssigns (oldClients : List Client) : List Assignment :=
  rankAssigns (fun i => (i : Int) + 1) 0 (sortByPriority oldClients)

/-- Destination-lane insertion writes (lines 164-170): sort the lane by
priority, write provisional ranks 1, 2, 3, ..., incrementing any rank that is
at least `newPriority`. -/
def insertionAssigns (targetClients : List Client) (newPriority : Int) : List Assignment :=
  rankAssigns (insRank newPriority) 0 (sortByPriority targetClients)

/-- All update statements issued by the handler on its write path
(lines 155-173), in program order: compaction of the vacated lane when the
status changed, then destination-lane insertion, then the target's own
status-and-priority update. -/
def emittedAssigns (clients : List Client) (client : Client) (newStatus : String)
    (newPriority : Int) : List Assignment :=
  (if newStatus ≠ client.status then
      compactionAssigns (swimlane clients client.status client.id)
    else [])
    ++ insertionAssigns (swimlane clients newStatus client.id) newPriority
    ++ [⟨client.id, some newStatus, newPriority⟩]

/-- A response sent through `res`. -/
inductive Resp where
  | ok (clients : List Client)
  | err (message longMessage : String)
  deriving DecidableEq, Repr

/-- Observable outcome of one PUT request: the responses sent in order, the
final table state, and whether the handler threw (dereferencing the `find`
result of a missing client) after the validation response. -/
structure PutResult where
  sent : List Resp
  state : List Client
  crashed : Bool
  deriving DecidableEq, Repr

/-- The PUT `/api/v1/clients/:id` handler (`src/server.js` lines 117-178).
Faithful to the source control flow, including that a failed `validateId`
sends a 400 but does not return: the body then either also sends the 200
with the unchanged snapshot (when neither status nor priority was supplied)
or throws a `TypeError` on `client.status` before issuing any update.
`client.id` equals the parsed path id whenever `find?` succeeds. -/
def putHandler (db : List Client) (rawId : Option Int) (status : Option String)
    (priority : Option Int) : PutResult :=
  let sent0 : List Resp :=
    match validateId rawId db with
    | some (m, lm) => [Resp.err m lm]
    | none => []
  let clients : List Client := db
  let found : Option Client :=
    match rawId with
    | some i => clients.find? (fun c => c.id == i)
    | none => none
  match status, priority with
  | none, none => ⟨sent0 ++ [Resp.ok clients], db, false⟩
  | _, _ =>
    match found with
    | none => ⟨sent0, db, true⟩
    | some client =>
      let newStatus : String := status.getD client.status
      let targetClients : List Client := swimlane clients newStatus client.id
      match priority with
      | some p =>
        match validatePriority p with
        | some (m, lm) => ⟨sent0 ++ [Resp.err m lm], db, false⟩
        | none =>
          let newPriority : Int := max 1 (min p ((targetClients.length : Int) + 1))
          let final := applyAssigns db (emittedAssigns clients client newStatus newPriority)
          ⟨sent0 ++ [Resp.ok final], final, false⟩
      | none =>
        let newPriority : Int :=
          if newStatus ≠ client.status then (targetClients.length : Int) + 1
          else client.priority
        let final := applyAssigns db (emittedAssigns clients client newStatus newPriority)
        ⟨sent0 ++ [Resp.ok final], final, false⟩

/-- All clients currently in swimlane `s` (the spec's notion of a swimlane). -/
def laneOf (db : List Client) (s : String) : List Client :=
  db.filter (fun c => c.status == s)

/-- The dense-unique-priority invariant on a list of priorities: the values
are, up to order, exactly 1, 2, ..., n. -/
def denseList (l : List Int) : Prop :=
  l.Perm ((List.range l.length).map (fun i : Nat => (i : Int) + 1))

instance (l : List Int) : Decidable (denseList l) :=
  List.decidablePerm _ _

/-- Swimlane `s` of the table satisfies the dense-unique-priority invariant. -/
def laneDense (db : List Client) (s : String) : Prop :=
  denseList ((laneOf db s).map Client.priority)

instance (db : List Client) (s : String) : Decidable (laneDense db s) :=
  List.decidablePerm _ _

/-- The spec's alternative formulation of destination-lane insertion: shift
every member whose current rank is at least the effective priority up by one,
leaving the others untouched. -/
def shiftInsertSpec (lane : List Client) (p : Int) : List Client :=
  lane.map (fun c => if c.priority ≥ p then { c with priority := c.priority + 1 } else c)

/-- The fixed status enumeration. -/
def statusEnum : List String :=
  ["backlog", "in-progress", "complete"]

/-! Basic lemmas about the stable sort -/

lemma insertSorted_perm (c : Client) (l : List Client) :
    (insertSorted c l).Perm (c :: l) := by
  induction l with
  | nil => simp [insertSorted]
  | cons d rest ih =>
    simp only [insertSorted]
    by_cases h : c.priority ≤ d.priority
    · rw [if_pos h]
    · rw [if_neg h]
      exact (ih.cons d).trans (List.Perm.swap c d rest)

lemma sortByPriority_perm (l : List Client) : (sortByPriority l).Perm l := by
  induction l with
  | nil => simp [sortByPriority]
  | cons c rest ih =>
    exact (insertSorted_perm c (sortByPriority rest)).trans (ih.cons c)

lemma mem_sortByPriority {c : Client} {l : List Client} :
    c ∈ sortByPriority l ↔ c ∈ l :=
  (sortByPriority_perm l).mem_iff

lemma insertSorted_sorted (c : Client) (l : List Client)
    (h : l.Pairwise (fun a b => a.priority ≤ b.priority)) :
    (insertSorted c l).Pairwise (fun a b => a.priority ≤ b.priority) := by
  induction l with
  | nil => simp [insertSorted]
  | cons d rest ih =>
    rcases List.pairwise_cons.mp h with ⟨hd, hrest⟩
    simp only [insertSorted]
    by_cases hc : c.priority ≤ d.priority
    · rw [if_pos hc]
      refine List.pairwise_cons.mpr ⟨?_, h⟩
      intro b hb
      rcases List.mem_cons.mp hb with rfl | hb
      · exact hc
      · exact le_trans hc (hd b hb)
    · rw [if_neg hc]
      refine List.pairwise_cons.mpr ⟨?_, ih hrest⟩
      intro b hb
      have hb' : b ∈ c :: rest := (insertSorted_perm c rest).mem_iff.mp hb
      rcases List.mem_cons.mp hb' with rfl | hb'
      · omega
      · exact hd b hb'

lemma sortByPriority_sorted (l : List Client) :
    (sortByPriority l).Pairwise (fun a b => a.priority ≤ b.priority) := by
  induction l with
  | nil => simp [sortByPriority]
  | cons c rest ih => exact insertSorted_sorted c _ ih

/-- A stable-sorted client list whose priorities are a permutation of an
ascending list has exactly that list of priorities. -/
lemma sortByPriority_map_eq (l : List Client) (s : List Int)
    (hperm : (l.map Client.priority).Perm s)
    (hs : s.Pairwise (fun a b : Int => a ≤ b)) :
    (sortByPriority l).map Client.priority = s := by
  apply List.eq_of_perm_of_sorted (r := fun a b : Int => a ≤ b)
  · exact (((sortByPriority_perm l).map Client.priority)).trans hperm
  · exact List.pairwise_map.mpr (sortByPriority_sorted l)
  · exact hs

/-! Applying update statements -/

lemma applyAssigns_eq_map (db : List Client) (ws : List Assignment) :
    applyAssigns db ws = db.map (fun c => applyToClient c ws) := by
  induction ws generalizing db with
  | nil => simp [applyAssigns, applyToClient]
  | cons a ws ih =>
    show applyAssigns (applyAssign db a) ws = _
    rw [ih]
    simp only [applyAssign, List.map_map]
    rfl

lemma applyToClient_append (c : Client) (ws vs : List Assignment) :
    applyToClient c (ws ++ vs) = applyToClient (applyToClient c ws) vs :=
  List.foldl_append _ _ _ _

lemma applyToClient_of_ne (c : Client) (ws : List Assignment)
    (h : ∀ a ∈ ws, a.targetId ≠ c.id) : applyToClient c ws = c := by
  induction ws with
  | nil => rfl
  | cons a ws ih =>
    have h1 : stepClient c a = c := by
      unfold stepClient
      rw [if_neg]
      intro he
      exact h a (List.mem_cons_self a ws) he.symm
    show applyToClient (stepClient c a) ws = c
    rw [h1]
    exact ih (fun b hb => h b (List.mem_cons_of_mem a hb))

lemma mem_rankAssigns_id {f : Nat → Int} {i : Nat} {l : List Client} {a : Assignment}
    (ha : a ∈ rankAssigns f i l) : a.targetId ∈ l.map Client.id := by
  induction l generalizing i with
  | nil => simp [rankAssigns] at ha
  | cons c rest ih =>
    simp only [rankAssigns, List.mem_cons] at ha
    rcases ha with rfl | ha
    · simp
    · simp only [List.map_cons, List.mem_cons]
      exact Or.inr (ih ha)

lemma applyToClient_rank_skip (c : Client) (f : Nat → Int) (i : Nat) (l : List Client)
    (h : ∀ d ∈ l, d.id ≠ c.id) :
    applyToClient c (rankAssigns f i l) = c := by
  apply applyToClient_of_ne
  intro a ha
  rcases List.mem_map.mp (mem_rankAssigns_id ha) with ⟨d, hd, hdid⟩
  rw [← hdid]
  exact h d hd

/-- A client appearing (with a unique id) in the ranked list receives exactly
the rank attached to its position. -/
lemma applyToClient_rankAssigns (f : Nat → Int) (i : Nat) (l : List Client)
    (hnd : (l.map Client.id).Nodup) (c : Client) (hc : c ∈ l) :
    applyToClient c (rankAssigns f i l) = { c with priority := f (i + l.indexOf c) } := by
  induction l generalizing i with
  | nil => cases hc
  | cons d rest ih =>
    simp only [List.map_cons, List.nodup_cons] at hnd
    rcases List.mem_cons.mp hc with rfl | hc'
    · show applyToClient (stepClient c ⟨c.id, none, f i⟩) (rankAssigns f (i + 1) rest) = _
      have hstep : stepClient c ⟨c.id, none, f i⟩ = { c with priority := f i } := by
        simp [stepClient]
      rw [hstep]
      rw [applyToClient_rank_skip _ f (i + 1) rest]
      · rw [List.indexOf_cons_self, Nat.add_zero]
      · intro d hd hEq
        exact hnd.1 (hEq ▸ List.mem_map_of_mem Client.id hd)
    · have hcid : c.id ∈ rest.map Client.id := List.mem_map_of_mem Client.id hc'
      have hdc : d ≠ c := by
        intro hEq
        exact hnd.1 (hEq ▸ hcid)
      have hdid : d.id ≠ c.id := by
        intro hEq
        exact hnd.1 (hEq ▸ hcid)
      show applyToClient (stepClient c ⟨d.id, none, f i⟩) (rankAssigns f (i + 1) rest) = _
      have hstep : stepClient c ⟨d.id, none, f i⟩ = c := by
        unfold stepClient
        rw [if_neg]
        intro he
        exact hdid he.symm
      rw [hstep, ih (i + 1) hnd.2 hc', List.indexOf_cons_ne rest hdc]
      have : i + 1 + List.indexOf c rest = i + (List.indexOf c rest).succ := by omega
      rw [this]

/-- Mapping each member of a duplicate-free list to a function of its index
enumerates that function over all positions. -/
lemma map_indexOf_self (f : Nat → Int) (l : List Client) (h : l.Nodup) :
    l.map (fun c => f (l.indexOf c)) = (List.range l.length).map f := by
  induction l generalizing f with
  | nil => simp
  | cons d rest ih =>
    rcases List.nodup_cons.mp h with ⟨hd, hrest⟩
    have hmap : rest.map (fun c => f ((d :: rest).indexOf c))
        = rest.map (fun c => f (Nat.succ (rest.indexOf c))) := by
      apply List.map_congr_left
      intro c hc
      have hne : d ≠ c := fun hEq => hd (hEq ▸ hc)
      rw [List.indexOf_cons_ne rest hne]
    have ihs := ih (fun j => f (Nat.succ j)) hrest
    rw [List.map_cons, List.indexOf_cons_self, hmap, ihs, List.length_cons,
      List.range_succ_eq_map, List.map_cons, List.map_map]
    rfl

/-! Swimlane membership and id uniqueness -/

lemma mem_swimlane {clients : List Client} {s : String} {ex : Int} {c : Client} :
    c ∈ swimlane clients s ex ↔ c ∈ clients ∧ c.status = s ∧ c.id ≠ ex := by
  simp [swimlane, List.mem_filter, Bool.and_eq_true, beq_iff_eq, bne_iff_ne, and_assoc]

lemma swimlane_sublist (clients : List Client) (s : String) (ex : Int) :
    (swimlane clients s ex).Sublist clients :=
  List.filter_sublist clients

lemma nodup_id_swimlane {clients : List Client} (hnd : (clients.map Client.id).Nodup)
    (s : String) (ex : Int) : ((swimlane clients s ex).map Client.id).Nodup :=
  List.Nodup.sublist ((swimlane_sublist clients s ex).map Client.id) hnd

lemma nodup_id_sort {clients : List Client} (hnd : (clients.map Client.id).Nodup)
    (s : String) (ex : Int) :
    ((sortByPriority (swimlane clients s ex)).map Client.id).Nodup :=
  ((sortByPriority_perm _).map Client.id).nodup_iff.mpr (nodup_id_swimlane hnd s ex)

lemma nodup_sort {clients : List Client} (hnd : (clients.map Client.id).Nodup)
    (s : String) (ex : Int) : (sortByPriority (swimlane clients s ex)).Nodup :=
  (nodup_id_sort hnd s ex).of_map

lemma eq_of_mem_id {clients : List Client} (hnd : (clients.map Client.id).Nodup)
    {c d : Client} (hc : c ∈ clients) (hd : d ∈ clients) (h : d.id = c.id) : d = c :=
  List.inj_on_of_nodup_map hnd hd hc h

lemma find?_id_eq {db : List Client} {client : Client}
    (hnd : (db.map Client.id).Nodup) (hc : client ∈ db) :
    db.find? (fun c => c.id == client.id) = some client := by
  induction db with
  | nil => cases hc
  | cons d rest ih =>
    simp only [List.map_cons, List.nodup_cons] at hnd
    rcases List.mem_cons.mp hc with rfl | hc'
    · exact List.find?_cons_of_pos rest (by simp)
    · have hne : ¬(d.id == client.id) = true := by
        simp only [beq_iff_eq]
        intro h
        exact hnd.1 (h ▸ List.mem_map_of_mem Client.id hc')
      rw [List.find?_cons_of_neg rest hne]
      exact ih hnd.2 hc'

lemma filter_id_single {db : List Client} {client : Client}
    (hnd : (db.map Client.id).Nodup) (hc : client ∈ db) :
    db.filter (fun c => c.id == client.id) = [client] := by
  induction db with
  | nil => cases hc
  | cons d rest ih =>
    simp only [List.map_cons, List.nodup_cons] at hnd
    rcases List.mem_cons.mp hc with rfl | hc'
    · rw [List.filter_cons, if_pos (by simp)]
      have hres : rest.filter (fun c => c.id == client.id) = [] := by
        apply List.filter_eq_nil_iff.mpr
        intro a ha
        simp only [beq_iff_eq]
        intro h
        exact hnd.1 (h ▸ List.mem_map_of_mem Client.id ha)
      rw [hres]
    · have hcond : ¬(d.id == client.id) = true := by
        simp only [beq_iff_eq]
        intro h
        exact hnd.1 (h ▸ List.mem_map_of_mem Client.id hc')
      rw [List.filter_cons, if_neg hcond]
      exact ih hnd.2 hc'

lemma filter_or_perm (l : List Client) (p q : Client → Bool)
    (hdisj : ∀ c ∈ l, ¬(p c = true ∧ q c = true)) :
    (l.filter (fun c => p c || q c)).Perm (l.filter p ++ l.filter q) := by
  induction l with
  | nil => simp
  | cons a rest ih =>
    have ih' := ih (fun c hc => hdisj c (List.mem_cons_of_mem a hc))
    by_cases hp : p a = true
    · have hq : q a = false :=
        Bool.not_eq_true _ ▸ (fun h => hdisj a (List.mem_cons_self a rest) ⟨hp, h⟩)
      simp only [List.filter_cons, hp, hq, Bool.true_or, if_true, if_false]
      exact ih'.cons a
    · have hp' : p a = false := Bool.not_eq_true _ ▸ hp
      by_cases hq : q a = true
      · simp only [List.filter_cons, hp', hq, Bool.false_or, if_true, if_false]
        exact (ih'.cons a).trans List.perm_middle.symm
      · have hq' : q a = false := Bool.not_eq_true _ ▸ hq
        simp only [List.filter_cons, hp', hq', Bool.false_or, if_false]
        exact ih'

/-! The written ranks form a dense sequence -/

/-- Inserting the effective priority into the ranks written by the
destination-lane loop yields exactly the dense sequence 1..k+1. -/
lemma insRank_cons_perm (k : Nat) (p : Int) (h1 : 1 ≤ p) (h2 : p ≤ (k : Int) + 1) :
    (p :: (List.range k).map (insRank p)).Perm
      ((List.range (k + 1)).map (fun i : Nat => (i : Int) + 1)) := by
  induction k with
  | zero =>
    have hp : p = 1 := by omega
    subst hp
    decide
  | succ k ih =>
    by_cases hk : p ≤ (k : Int) + 1
    · have hval : insRank p k = (k : Int) + 2 := by
        unfold insRank
        rw [if_pos (by omega)]
      have e1 : p :: (List.range (k + 1)).map (insRank p)
          = (p :: (List.range k).map (insRank p)) ++ [(k : Int) + 2] := by
        rw [List.range_succ, List.map_append, List.map_singleton, hval]
        rfl
      have hvcast : ((k + 1 : Nat) : Int) + 1 = (k : Int) + 2 := by push_cast; ring
      have e2 : (List.range (k + 1 + 1)).map (fun i : Nat => (i : Int) + 1)
          = ((List.range (k + 1)).map (fun i : Nat => (i : Int) + 1)) ++ [(k : Int) + 2] := by
        rw [List.range_succ, List.map_append, List.map_singleton, hvcast]
      rw [e1, e2]
      exact (ih hk).append_right _
    · have hmap : (List.range (k + 1)).map (insRank p)
          = (List.range (k + 1)).map (fun i : Nat => (i : Int) + 1) := by
        apply List.map_congr_left
        intro i hi
        have hik : i < k + 1 := List.mem_range.mp hi
        unfold insRank
        rw [if_neg (by omega)]
      have hpval : ((k + 1 : Nat) : Int) + 1 = p := by push_cast at h2 ⊢; omega
      have e2 : (List.range (k + 1 + 1)).map (fun i : Nat => (i : Int) + 1)
          = ((List.range (k + 1)).map (fun i : Nat => (i : Int) + 1)) ++ [p] := by
        rw [List.range_succ, List.map_append, List.map_singleton, hpval]
      rw [hmap, e2]
      exact (List.perm_append_singleton p _).symm

lemma insRank_lt (p : Int) {i j : Nat} (h : i < j) : insRank p i < insRank p j := by
  unfold insRank
  by_cases hi : (i : Int) + 1 ≥ p
  · rw [if_pos hi, if_pos (by omega)]
    omega
  · rw [if_neg hi]
    by_cases hj : (j : Int) + 1 ≥ p
    · rw [if_pos hj]
      omega
    · rw [if_neg hj]
      omega

lemma sorted_map_insRank (p : Int) (k : Nat) :
    ((List.range k).map (insRank p)).Pairwise (fun a b : Int => a ≤ b) :=
  List.Pairwise.map _ (fun _ _ hab => le_of_lt (insRank_lt p hab)) (List.pairwise_lt_range k)

lemma sorted_map_denseVals (k : Nat) :
    ((List.range k).map (fun i : Nat => (i : Int) + 1)).Pairwise (fun a b : Int => a ≤ b) :=
  List.Pairwise.map _ (fun _ _ hab => by omega) (List.pairwise_lt_range k)

/-! Pointwise characterization of the write path -/

/-- The row-level effect of the full write sequence: the target gets the new
status and priority; destination-lane members get their insertion rank;
source-lane members (on a lane change) get their compaction rank; everyone
else is untouched. -/
def finalClient (clients : List Client) (client : Client) (newStatus : String)
    (newPriority : Int) (c : Client) : Client :=
  if c.id = client.id then { c with status := newStatus, priority := newPriority }
  else if c.status = newStatus then
    { c with priority :=
        insRank newPriority ((sortByPriority (swimlane clients newStatus client.id)).indexOf c) }
  else if newStatus ≠ client.status ∧ c.status = client.status then
    { c with priority :=
        ((sortByPriority (swimlane clients client.status client.id)).indexOf c : Int) + 1 }
  else c

lemma applyAssigns_emitted (clients : List Client) (client : Client) (ns : String) (np : Int)
    (hnd : (clients.map Client.id).Nodup) :
    applyAssigns clients (emittedAssigns clients client ns np)
      = clients.map (finalClient clients client ns np) := by
  rw [applyAssigns_eq_map]
  apply List.map_congr_left
  intro c hcmem
  unfold emittedAssigns finalClient compactionAssigns insertionAssigns
  rw [applyToClient_append, applyToClient_append]
  have htgt : ∀ c' : Client, c'.id = c.id → c.id ≠ client.id →
      applyToClient c' [⟨client.id, some ns, np⟩] = c' := by
    intro c' hc' hne
    apply applyToClient_of_ne
    intro a ha
    rcases List.mem_singleton.mp ha with rfl
    rw [hc']
    exact fun h => hne h.symm
  by_cases hid : c.id = client.id
  · rw [if_pos hid]
    have hold : applyToClient c
        (if ns ≠ client.status then
          rankAssigns (fun i => (i : Int) + 1) 0
            (sortByPriority (swimlane clients client.status client.id))
        else []) = c := by
      split
      · apply applyToClient_rank_skip
        intro d hd
        have hd' := mem_swimlane.mp (mem_sortByPriority.mp hd)
        rw [hid]
        exact hd'.2.2
      · rfl
    have hins : applyToClient c
        (rankAssigns (insRank np) 0 (sortByPriority (swimlane clients ns client.id))) = c := by
      apply applyToClient_rank_skip
      intro d hd
      have hd' := mem_swimlane.mp (mem_sortByPriority.mp hd)
      rw [hid]
      exact hd'.2.2
    rw [hold, hins]
    simp [applyToClient, stepClient, hid]
  · rw [if_neg hid]
    by_cases hstat : c.status = ns
    · rw [if_pos hstat]
      have hcTC : c ∈ swimlane clients ns client.id := mem_swimlane.mpr ⟨hcmem, hstat, hid⟩
      have hold : applyToClient c
          (if ns ≠ client.status then
            rankAssigns (fun i => (i : Int) + 1) 0
              (sortByPriority (swimlane clients client.status client.id))
          else []) = c := by
        split
        · rename_i hne
          apply applyToClient_rank_skip
          intro d hd hdc
          have hd' := mem_swimlane.mp (mem_sortByPriority.mp hd)
          have hdc2 : d = c := eq_of_mem_id hnd hcmem hd'.1 hdc
          apply hne
          rw [← hstat, ← hdc2]
          exact hd'.2.1
        · rfl
      have hins : applyToClient c
          (rankAssigns (insRank np) 0 (sortByPriority (swimlane clients ns client.id)))
          = { c with priority :=
              insRank np ((sortByPriority (swimlane clients ns client.id)).indexOf c) } := by
        have h := applyToClient_rankAssigns (insRank np) 0
          (sortByPriority (swimlane clients ns client.id))
          (nodup_id_sort hnd ns client.id) c (mem_sortByPriority.mpr hcTC)
        rw [Nat.zero_add] at h
        exact h
      rw [hold, hins]
      exact htgt _ rfl hid
    · rw [if_neg hstat]
      by_cases hsrc : ns ≠ client.status ∧ c.status = client.status
      · rw [if_pos hsrc]
        have hcOC : c ∈ swimlane clients client.status client.id :=
          mem_swimlane.mpr ⟨hcmem, hsrc.2, hid⟩
        have hold : applyToClient c
            (if ns ≠ client.status then
              rankAssigns (fun i => (i : Int) + 1) 0
                (sortByPriority (swimlane clients client.status client.id))
            else [])
            = { c with priority :=
                ((sortByPriority (swimlane clients client.status client.id)).indexOf c : Int) + 1 } := by
          rw [if_pos hsrc.1]
          have h := applyToClient_rankAssigns (fun i => (i : Int) + 1) 0
            (sortByPriority (swimlane clients client.status client.id))
            (nodup_id_sort hnd client.status client.id) c (mem_sortByPriority.mpr hcOC)
          rw [Nat.zero_add] at h
          exact h
        have hins : applyToClient
            { c with priority :=
                ((sortByPriority (swimlane clients client.status client.id)).indexOf c : Int) + 1 }
            (rankAssigns (insRank np) 0 (sortByPriority (swimlane clients ns client.id)))
            = { c with priority :=
                ((sortByPriority (swimlane clients client.status client.id)).indexOf c : Int) + 1 } := by
          apply applyToClient_rank_skip
          intro d hd hdc
          have hd' := mem_swimlane.mp (mem_sortByPriority.mp hd)
          have hdc2 : d = c := eq_of_mem_id hnd hcmem hd'.1 hdc
          apply hstat
          rw [← hdc2]
          exact hd'.2.1
        rw [hold, hins]
        exact htgt _ rfl hid
      · rw [if_neg hsrc]
        have hold : applyToClient c
            (if ns ≠ client.status then
              rankAssigns (fun i => (i : Int) + 1) 0
                (sortByPriority (swimlane clients client.status client.id))
            else []) = c := by
          split
          · rename_i hne
            apply applyToClient_rank_skip
            intro d hd hdc
            have hd' := mem_swimlane.mp (mem_sortByPriority.mp hd)
            have hdc2 : d = c := eq_of_mem_id hnd hcmem hd'.1 hdc
            apply hsrc
            refine ⟨hne, ?_⟩
            rw [← hdc2]
            exact hd'.2.1
          · rfl
        have hins : applyToClient c
            (rankAssigns (insRank np) 0 (sortByPriority (swimlane clients ns client.id))) = c := by
          apply applyToClient_rank_skip
          intro d hd hdc
          have hd' := mem_swimlane.mp (mem_sortByPriority.mp hd)
          have hdc2 : d = c := eq_of_mem_id hnd hcmem hd'.1 hdc
          apply hstat
          rw [← hdc2]
          exact hd'.2.1
        rw [hold, hins]
        exact htgt _ rfl hid

/-! Projections of the row-level characterization -/

lemma finalClient_id (clients : List Client) (client : Client) (ns : String) (np : Int)
    (c : Client) : (finalClient clients client ns np c).id = c.id := by
  unfold finalClient
  repeat' split
  all_goals rfl

lemma finalClient_name (clients : List Client) (client : Client) (ns : String) (np : Int)
    (c : Client) : (finalClient clients client ns np c).name = c.name := by
  unfold finalClient
  repeat' split
  all_goals rfl

lemma finalClient_status (clients : List Client) (client : Client) (ns : String) (np : Int)
    (c : Client) :
    (finalClient clients client ns np c).status = if c.id = client.id then ns else c.status := by
  unfold finalClient
  by_cases hid : c.id = client.id
  · rw [if_pos hid, if_pos hid]
  · rw [if_neg hid, if_neg hid]
    repeat' split
    all_goals rfl

lemma finalClient_target (clients : List Client) (client : Client) (ns : String) (np : Int) :
    finalClient clients client ns np client = { client with status := ns, priority := np } := by
  unfold finalClient
  rw [if_pos rfl]

lemma finalClient_dest_mem (clients : List Client) (client : Client) (ns : String) (np : Int)
    {c : Client} (h : c ∈ swimlane clients ns client.id) :
    finalClient clients client ns np c
      = { c with priority :=
          insRank np ((sortByPriority (swimlane clients ns client.id)).indexOf c) } := by
  rcases mem_swimlane.mp h with ⟨_, hstat, hid⟩
  unfold finalClient
  rw [if_neg hid, if_pos hstat]

lemma finalClient_source_mem (clients : List Client) (client : Client) (ns : String) (np : Int)
    (hne : ns ≠ client.status) {c : Client}
    (h : c ∈ swimlane clients client.status client.id) :
    finalClient clients client ns np c
      = { c with priority :=
          ((sortByPriority (swimlane clients client.status client.id)).indexOf c : Int) + 1 } := by
  rcases mem_swimlane.mp h with ⟨_, hstat, hid⟩
  unfold finalClient
  rw [if_neg hid, if_neg (fun h2 : c.status = ns => hne (h2.symm.trans hstat)),
    if_pos ⟨hne, hstat⟩]

lemma finalClient_untouched (clients : List Client) (client : Client) (ns : String) (np : Int)
    (c : Client) (hid : c.id ≠ client.id) (h1 : c.status ≠ ns)
    (h2 : c.status ≠ client.status ∨ ns = client.status) :
    finalClient clients client ns np c = c := by
  unfold finalClient
  rw [if_neg hid, if_neg h1, if_neg]
  rintro ⟨ha, hb⟩
  rcases h2 with h2 | h2
  · exact h2 hb
  · exact ha h2

/-! Identifying written values from a dense lane -/

/-- If mapping `g` over a duplicate-free list echoes `f` over the positions,
then `g` of each member is `f` of its index. -/
lemma map_eq_range_map {g : Client → Int} {f : Nat → Int} {l : List Client}
    (h : l.map g = (List.range l.length).map f) (hnd : l.Nodup) :
    ∀ c ∈ l, g c = f (l.indexOf c) := by
  induction l generalizing f with
  | nil => intro c hc; cases hc
  | cons d rest ih =>
    intro c hc
    rw [List.length_cons, List.range_succ_eq_map, List.map_cons, List.map_cons,
      List.map_map] at h
    injection h with h1 h2
    rcases List.mem_cons.mp hc with rfl | hc'
    · rw [List.indexOf_cons_self]
      exact h1
    · have hdr : d ∉ rest := (List.nodup_cons.mp hnd).1
      have hne : d ≠ c := fun he => hdr (he ▸ hc')
      rw [List.indexOf_cons_ne rest hne]
      exact ih (f := fun j => f (Nat.succ j)) h2 (List.nodup_cons.mp hnd).2 c hc'

/-! Lane decomposition of the snapshot -/

lemma validateId_of_mem {db : List Client} {client : Client} (hc : client ∈ db) :
    validateId (some client.id) db = none := by
  simp only [validateId]
  rw [if_pos]
  exact List.any_eq_true.mpr ⟨client, hc, by simp⟩

/-- The full swimlane of the snapshot is, up to order, the target client
followed by the lane members that exclude it. -/
lemma laneOf_split (clients : List Client) (client : Client) (s : String)
    (hnd : (clients.map Client.id).Nodup) (hc : client ∈ clients)
    (hs : client.status = s) :
    (laneOf clients s).Perm (client :: swimlane clients s client.id) := by
  have hcongr : laneOf clients s
      = clients.filter (fun c => (c.id == client.id) || (c.status == s && c.id != client.id)) := by
    unfold laneOf
    apply List.filter_congr
    intro c hcm
    by_cases hid : c.id = client.id
    · have hcc : c = client := eq_of_mem_id hnd hc hcm hid
      have e1 : (c.id == client.id) = true := by simp [hid]
      have e2 : (c.status == s) = true := by simp [hcc, hs]
      rw [e1, e2, Bool.true_or]
    · have e1 : (c.id == client.id) = false := by simp [hid]
      have e2 : (c.id != client.id) = true := by simp [hid]
      rw [e1, e2, Bool.false_or, Bool.and_true]
  have hdisj : ∀ c ∈ clients,
      ¬(((c.id == client.id) = true) ∧ ((c.status == s && c.id != client.id) = true)) := by
    intro c _ h
    rcases h with ⟨h1, h2⟩
    simp only [beq_iff_eq] at h1
    simp only [Bool.and_eq_true, bne_iff_ne] at h2
    exact h2.2 h1
  rw [hcongr]
  refine (filter_or_perm clients _ _ hdisj).trans ?_
  rw [filter_id_single hnd hc]
  rfl

/-! Density of the destination lane after the writes -/

lemma dest_lane_perm (clients : List Client) (client : Client) (ns : String) (np : Int)
    (hnd : (clients.map Client.id).Nodup) (hc : client ∈ clients) :
    ((laneOf (clients.map (finalClient clients client ns np)) ns).map Client.priority).Perm
      (np :: ((swimlane clients ns client.id).map (fun c =>
        insRank np ((sortByPriority (swimlane clients ns client.id)).indexOf c)))) := by
  have hfm : laneOf (clients.map (finalClient clients client ns np)) ns
      = (clients.filter (fun c => ((finalClient clients client ns np c).status == ns))).map
          (finalClient clients client ns np) := by
    unfold laneOf
    rw [List.filter_map]
    rfl
  have hcongr : clients.filter (fun c => ((finalClient clients client ns np c).status == ns))
      = clients.filter (fun c => (c.id == client.id) || (c.status == ns && c.id != client.id)) := by
    apply List.filter_congr
    intro c hcm
    rw [finalClient_status]
    by_cases hid : c.id = client.id
    · have e0 : (c.id == client.id) = true := by simp [hid]
      rw [if_pos hid, e0, Bool.true_or]
      simp
    · have e0 : (c.id == client.id) = false := by simp [hid]
      have e2 : (c.id != client.id) = true := by simp [hid]
      rw [if_neg hid, e0, e2, Bool.false_or, Bool.and_true]
  have hdisj : ∀ c ∈ clients,
      ¬(((c.id == client.id) = true) ∧ ((c.status == ns && c.id != client.id) = true)) := by
    intro c _ h
    rcases h with ⟨h1, h2⟩
    simp only [beq_iff_eq] at h1
    simp only [Bool.and_eq_true, bne_iff_ne] at h2
    exact h2.2 h1
  have hperm := filter_or_perm clients (fun c => c.id == client.id)
      (fun c => c.status == ns && c.id != client.id) hdisj
  rw [filter_id_single hnd hc] at hperm
  have hmain : (laneOf (clients.map (finalClient clients client ns np)) ns).Perm
      (finalClient clients client ns np client
        :: (swimlane clients ns client.id).map (finalClient clients client ns np)) := by
    rw [hfm, hcongr]
    have h2 := hperm.map (finalClient clients client ns np)
    simpa using h2
  have hlast : ((swimlane clients ns client.id).map
        (fun c => (finalClient clients client ns np c).priority))
      = (swimlane clients ns client.id).map (fun c =>
          insRank np ((sortByPriority (swimlane clients ns client.id)).indexOf c)) := by
    apply List.map_congr_left
    intro c hcm
    rw [finalClient_dest_mem clients client ns np hcm]
  have hfinal := hmain.map Client.priority
  rw [List.map_cons, List.map_map] at hfinal
  have hcomp : (Client.priority ∘ finalClient clients client ns np)
      = fun c => (finalClient clients client ns np c).priority := rfl
  rw [hcomp, hlast, finalClient_target] at hfinal
  exact hfinal

lemma laneDense_dest (clients : List Client) (client : Client) (ns : String) (np : Int)
    (hnd : (clients.map Client.id).Nodup) (hc : client ∈ clients)
    (h1 : 1 ≤ np) (h2 : np ≤ ((swimlane clients ns client.id).length : Int) + 1) :
    laneDense (clients.map (finalClient clients client ns np)) ns := by
  unfold laneDense denseList
  have hperm := dest_lane_perm clients client ns np hnd hc
  have hnodup_sw : (swimlane clients ns client.id).Nodup :=
    (nodup_id_swimlane hnd ns client.id).of_map
  have hsortnd : (sortByPriority (swimlane clients ns client.id)).Nodup :=
    (sortByPriority_perm _).nodup_iff.mpr hnodup_sw
  have hmi : (sortByPriority (swimlane clients ns client.id)).map (fun c =>
        insRank np ((sortByPriority (swimlane clients ns client.id)).indexOf c))
      = (List.range (sortByPriority (swimlane clients ns client.id)).length).map (insRank np) :=
    map_indexOf_self (insRank np) _ hsortnd
  have hperm2 : ((swimlane clients ns client.id).map (fun c =>
        insRank np ((sortByPriority (swimlane clients ns client.id)).indexOf c))).Perm
      ((List.range (swimlane clients ns client.id).length).map (insRank np)) := by
    have hp := (sortByPriority_perm (swimlane clients ns client.id)).symm.map
      (fun c => insRank np ((sortByPriority (swimlane clients ns client.id)).indexOf c))
    rw [hmi, (sortByPriority_perm (swimlane clients ns client.id)).length_eq] at hp
    exact hp
  have htotal := (hperm.trans (hperm2.cons np)).trans
    (insRank_cons_perm (swimlane clients ns client.id).length np h1 h2)
  have hlen : ((laneOf (clients.map (finalClient clients client ns np)) ns).map
        Client.priority).length
      = (swimlane clients ns client.id).length + 1 := by
    have := htotal.length_eq
    simpa using this
  rw [hlen]
  exact htotal

/-! Density of the vacated source lane after the writes -/

lemma source_lane_eq (clients : List Client) (client : Client) (ns : String) (np : Int)
    (hne : ns ≠ client.status) :
    laneOf (clients.map (finalClient clients client ns np)) client.status
      = (swimlane clients client.status client.id).map (finalClient clients client ns np) := by
  have hfm : laneOf (clients.map (finalClient clients client ns np)) client.status
      = (clients.filter
          (fun c => ((finalClient clients client ns np c).status == client.status))).map
          (finalClient clients client ns np) := by
    unfold laneOf
    rw [List.filter_map]
    rfl
  have hcongr : clients.filter
        (fun c => ((finalClient clients client ns np c).status == client.status))
      = clients.filter (fun c => c.status == client.status && c.id != client.id) := by
    apply List.filter_congr
    intro c hcm
    rw [finalClient_status]
    by_cases hid : c.id = client.id
    · have e1 : (ns == client.status) = false := by simp [hne]
      have e2 : (c.id != client.id) = false := by simp [hid]
      rw [if_pos hid, e1, e2, Bool.and_false]
    · have e2 : (c.id != client.id) = true := by simp [hid]
      rw [if_neg hid, e2, Bool.and_true]
  rw [hfm, hcongr]
  rfl

lemma laneDense_source (clients : List Client) (client : Client) (ns : String) (np : Int)
    (hnd : (clients.map Client.id).Nodup) (hne : ns ≠ client.status) :
    laneDense (clients.map (finalClient clients client ns np)) client.status := by
  unfold laneDense denseList
  rw [source_lane_eq clients client ns np hne]
  have hnodup_sw : (swimlane clients client.status client.id).Nodup :=
    (nodup_id_swimlane hnd client.status client.id).of_map
  have hsortnd : (sortByPriority (swimlane clients client.status client.id)).Nodup :=
    (sortByPriority_perm _).nodup_iff.mpr hnodup_sw
  have hlast : ((swimlane clients client.status client.id).map
        (finalClient clients client ns np)).map Client.priority
      = (swimlane clients client.status client.id).map (fun c =>
          ((sortByPriority (swimlane clients client.status client.id)).indexOf c : Int) + 1) := by
    rw [List.map_map]
    apply List.map_congr_left
    intro c hcm
    show (finalClient clients client ns np c).priority = _
    rw [finalClient_source_mem clients client ns np hne hcm]
  rw [hlast]
  have hmi : (sortByPriority (swimlane clients client.status client.id)).map (fun c =>
        ((sortByPriority (swimlane clients client.status client.id)).indexOf c : Int) + 1)
      = (List.range (sortByPriority (swimlane clients client.status client.id)).length).map
          (fun i : Nat => (i : Int) + 1) :=
    map_indexOf_self (fun i : Nat => (i : Int) + 1) _ hsortnd
  have hp := (sortByPriority_perm (swimlane clients client.status client.id)).symm.map
    (fun c => ((sortByPriority (swimlane clients client.status client.id)).indexOf c : Int) + 1)
  rw [hmi, (sortByPriority_perm (swimlane clients client.status client.id)).length_eq] at hp
  have hlen : ((swimlane clients client.status client.id).map (fun c =>
        ((sortByPriority (swimlane clients client.status client.id)).indexOf c : Int) + 1)).length
      = (swimlane clients client.status client.id).length := by simp
  rw [hlen]
  exact hp

/-! Bounds on the target's own priority under the invariant -/

lemma target_priority_bounds (clients : List Client) (client : Client)
    (hnd : (clients.map Client.id).Nodup) (hc : client ∈ clients)
    (hdense : laneDense clients client.status) :
    1 ≤ client.priority
      ∧ client.priority ≤ ((swimlane clients client.status client.id).length : Int) + 1 := by
  have hsplit := laneOf_split clients client client.status hnd hc rfl
  have hsplitp := hsplit.map Client.priority
  have hd : ((laneOf clients client.status).map Client.priority).Perm
      ((List.range ((laneOf clients client.status).map Client.priority).length).map
        (fun i : Nat => (i : Int) + 1)) := hdense
  have hlen : (laneOf clients client.status).length
      = (swimlane clients client.status client.id).length + 1 := by
    have := hsplit.length_eq
    simpa using this
  have hpmem : client.priority
      ∈ (List.range ((laneOf clients client.status).map Client.priority).length).map
        (fun i : Nat => (i : Int) + 1) :=
    hd.mem_iff.mp (hsplitp.mem_iff.mpr (List.mem_cons_self _ _))
  rcases List.mem_map.mp hpmem with ⟨i, hi, hiv⟩
  have hirange : i < ((laneOf clients client.status).map Client.priority).length :=
    List.mem_range.mp hi
  rw [List.length_map, hlen] at hirange
  constructor <;> omega

/-- Under the invariant, the lane members minus the target, sorted by priority,
carry exactly the dense sequence with the target's own rank skipped. -/
lemma sorted_sw_eq_insRank (clients : List Client) (client : Client)
    (hnd : (clients.map Client.id).Nodup) (hc : client ∈ clients)
    (hdense : laneDense clients client.status) :
    (sortByPriority (swimlane clients client.status client.id)).map Client.priority
      = (List.range (sortByPriority (swimlane clients client.status client.id)).length).map
          (insRank client.priority) := by
  rcases target_priority_bounds clients client hnd hc hdense with ⟨hb1, hb2⟩
  have hsplit := laneOf_split clients client client.status hnd hc rfl
  have hlen : (laneOf clients client.status).length
      = (swimlane clients client.status client.id).length + 1 := by
    have := hsplit.length_eq
    simpa using this
  have hconsperm := insRank_cons_perm (swimlane clients client.status client.id).length
      client.priority hb1 hb2
  have hcons2 : (client.priority
        :: (swimlane clients client.status client.id).map Client.priority).Perm
      ((List.range ((swimlane clients client.status client.id).length + 1)).map
        (fun i : Nat => (i : Int) + 1)) := by
    have h := (hsplit.map Client.priority).symm.trans hdense
    rwa [List.map_cons, List.length_map, hlen] at h
  have hswperm : ((swimlane clients client.status client.id).map Client.priority).Perm
      ((List.range (swimlane clients client.status client.id).length).map
        (insRank client.priority)) :=
    (hcons2.trans hconsperm.symm).cons_inv
  rw [(sortByPriority_perm _).length_eq]
  exact sortByPriority_map_eq _ _ hswperm (sorted_map_insRank _ _)

/-! Identity of the write path at a fixed point -/

/-- When the request resolves to the target's current status and priority under
the invariant, every row is rewritten to itself. -/
lemma finalClient_self (clients : List Client) (client : Client)
    (hnd : (clients.map Client.id).Nodup) (hc : client ∈ clients)
    (hdense : laneDense clients client.status) :
    clients.map (finalClient clients client client.status client.priority) = clients := by
  have hsorted_eq := sorted_sw_eq_insRank clients client hnd hc hdense
  have hnodupsort : (sortByPriority (swimlane clients client.status client.id)).Nodup :=
    (sortByPriority_perm _).nodup_iff.mpr
      ((nodup_id_swimlane hnd client.status client.id).of_map)
  have hval := map_eq_range_map hsorted_eq hnodupsort
  have hall : ∀ c ∈ clients,
      finalClient clients client client.status client.priority c = c := by
    intro c hcm
    by_cases hid : c.id = client.id
    · have hcc : c = client := eq_of_mem_id hnd hc hcm hid
      subst hcc
      rw [finalClient_target]
    · by_cases hstat : c.status = client.status
      · have hcm2 : c ∈ swimlane clients client.status client.id :=
          mem_swimlane.mpr ⟨hcm, hstat, hid⟩
        rw [finalClient_dest_mem clients client client.status client.priority hcm2]
        have hv := hval c (mem_sortByPriority.mpr hcm2)
        rw [← hv]
      · exact finalClient_untouched clients client client.status client.priority c hid hstat
          (Or.inr rfl)
  calc clients.map (finalClient clients client client.status client.priority)
      = clients.map id := List.map_congr_left hall
    _ = clients := List.map_id clients

/-! Order preservation of the stable sort -/

lemma sort_indexOf_lt {l : List Client} (hnd : l.Nodup) {c d : Client}
    (hcl : c ∈ l) (hdl : d ∈ l) (h : c.priority < d.priority) :
    (sortByPriority l).indexOf c < (sortByPriority l).indexOf d := by
  have hsl : (sortByPriority l).Nodup := (sortByPriority_perm l).nodup_iff.mpr hnd
  have hcs : c ∈ sortByPriority l := mem_sortByPriority.mpr hcl
  have hds : d ∈ sortByPriority l := mem_sortByPriority.mpr hdl
  have hcx := List.indexOf_lt_length.mpr hcs
  have hdx := List.indexOf_lt_length.mpr hds
  by_contra hle
  push_neg at hle
  rcases lt_or_eq_of_le hle with hlt | heq
  · have hp := List.pairwise_iff_get.mp (sortByPriority_sorted l)
      ⟨_, hdx⟩ ⟨_, hcx⟩ (Fin.mk_lt_mk.mpr hlt)
    rw [List.indexOf_get hdx, List.indexOf_get hcx] at hp
    omega
  · have hdc : d = c := (List.indexOf_inj hds hcs).mp heq
    rw [hdc] at h
    omega

/-! Reduction of the handler -/

lemma putHandler_none_none (db : List Client) (rawId : Option Int) :
    (putHandler db rawId none none).state = db := rfl

lemma putHandler_some_priority (db : List Client) (client : Client)
    (hnd : (db.map Client.id).Nodup) (hc : client ∈ db)
    (statusArg : Option String) (p : Int) :
    putHandler db (some client.id) statusArg (some p)
      = ⟨[Resp.ok (applyAssigns db (emittedAssigns db client (statusArg.getD client.status)
            (max 1 (min p
              (((swimlane db (statusArg.getD client.status) client.id).length : Int) + 1)))))],
         applyAssigns db (emittedAssigns db client (statusArg.getD client.status)
            (max 1 (min p
              (((swimlane db (statusArg.getD client.status) client.id).length : Int) + 1)))),
         false⟩ := by
  cases statusArg <;>
    simp [putHandler, validateId_of_mem hc, find?_id_eq hnd hc, validatePriority]

lemma putHandler_status_none (db : List Client) (client : Client)
    (hnd : (db.map Client.id).Nodup) (hc : client ∈ db) (s : String) :
    putHandler db (some client.id) (some s) none
      = ⟨[Resp.ok (applyAssigns db (emittedAssigns db client s
            (if s ≠ client.status then ((swimlane db s client.id).length : Int) + 1
             else client.priority)))],
         applyAssigns db (emittedAssigns db client s
            (if s ≠ client.status then ((swimlane db s client.id).length : Int) + 1
             else client.priority)),
         false⟩ := by
  simp [putHandler, validateId_of_mem hc, find?_id_eq hnd hc]

/-- Looking a row up by id in the written state resolves to the
characterization of the matching snapshot row. -/
lemma final_state_lookup (db : List Client) (client : Client) (ns : String) (np : Int)
    (hnd : (db.map Client.id).Nodup) {c c' : Client} (hcdb : c ∈ db)
    (hmem : c' ∈ applyAssigns db (emittedAssigns db client ns np)) (hid : c'.id = c.id) :
    c' = finalClient db client ns np c := by
  rw [applyAssigns_emitted db client ns np hnd] at hmem
  rcases List.mem_map.mp hmem with ⟨e, he, hee⟩
  have heid : e.id = c.id := by
    rw [← hid, ← hee, finalClient_id]
  have heq : e = c := eq_of_mem_id hnd hcdb he heid
  rw [← hee, heq]

lemma final_map_id_name (clients : List Client) (client : Client) (ns : String) (np : Int) :
    (clients.map (finalClient clients client ns np)).map (fun c => (c.id, c.name))
      = clients.map (fun c => (c.id, c.name)) := by
  rw [List.map_map]
  apply List.map_congr_left
  intro c _
  show ((finalClient clients client ns np c).id, (finalClient clients client ns np c).name)
    = (c.id, c.name)
  rw [finalClient_id, finalClient_name]

lemma untouched_mem (db : List Client) (client : Client) (ns : String) (np : Int)
    (hnd : (db.map Client.id).Nodup) (hc : client ∈ db) {c : Client} (hcm : c ∈ db)
    (h1 : c.status ≠ client.status) (h2 : c.status ≠ ns) :
    c ∈ applyAssigns db (emittedAssigns db client ns np) := by
  rw [applyAssigns_emitted db client ns np hnd]
  have hid : c.id ≠ client.id := by
    intro h
    have hcc : c = client := eq_of_mem_id hnd hc hcm h
    exact h1 (by rw [hcc])
  exact List.mem_map.mpr ⟨c, hcm, finalClient_untouched db client ns np c hid h2 (Or.inl h1)⟩

/-! The claims -/

/-- C1: for every snapshot whose swimlanes all satisfy the dense-unique-priority
invariant (ids unique) and every well-formed move request — existing target id,
status in the fixed enumeration or absent, positive-integer priority or absent —
applying all assignments emitted by the PUT reorder logic yields a state in
which both the destination swimlane and the target's original swimlane again
satisfy the dense-unique-priority invariant. -/
theorem C1_invariant_preservation (db : List Client) (client : Client)
    (statusArg : Option String) (priorityArg : Option Int)
    (hnd : (db.map Client.id).Nodup) (hc : client ∈ db)
    (hinv : ∀ s ∈ db.map Client.status, laneDense db s)
    (hs : statusArg = none ∨ ∃ s, statusArg = some s ∧ s ∈ statusEnum)
    (hp : priorityArg = none ∨ ∃ p, priorityArg = some p ∧ 1 ≤ p) :
    laneDense (putHandler db (some client.id) statusArg priorityArg).state
        (statusArg.getD client.status)
      ∧ laneDense (putHandler db (some client.id) statusArg priorityArg).state
        client.status := by
  have hdense0 : laneDense db client.status :=
    hinv client.status (List.mem_map_of_mem Client.status hc)
  rcases hp with rfl | ⟨p, rfl, -⟩
  · rcases hs with rfl | ⟨s, rfl, -⟩
    · rw [putHandler_none_none]
      exact ⟨hdense0, hdense0⟩
    · rw [putHandler_status_none db client hnd hc s]
      by_cases hch : s = client.status
      · subst hch
        have hnp : (if client.status ≠ client.status
            then ((swimlane db client.status client.id).length : Int) + 1
            else client.priority) = client.priority := if_neg (fun h => h rfl)
        rw [hnp, applyAssigns_emitted db client client.status client.priority hnd]
        rcases target_priority_bounds db client hnd hc hdense0 with ⟨hb1, hb2⟩
        have hd := laneDense_dest db client client.status client.priority hnd hc hb1 hb2
        exact ⟨hd, hd⟩
      · have hnp : (if s ≠ client.status then ((swimlane db s client.id).length : Int) + 1
            else client.priority) = ((swimlane db s client.id).length : Int) + 1 := if_pos hch
        rw [hnp, applyAssigns_emitted db client s
          (((swimlane db s client.id).length : Int) + 1) hnd]
        constructor
        · exact laneDense_dest db client s _ hnd hc (by omega) (by omega)
        · exact laneDense_source db client s _ hnd hch
  · rw [putHandler_some_priority db client hnd hc statusArg p,
      applyAssigns_emitted db client (statusArg.getD client.status)
        (max 1 (min p
          (((swimlane db (statusArg.getD client.status) client.id).length : Int) + 1))) hnd]
    have hb1 : 1 ≤ max 1 (min p
        (((swimlane db (statusArg.getD client.status) client.id).length : Int) + 1)) := by
      omega
    have hb2 : max 1 (min p
          (((swimlane db (statusArg.getD client.status) client.id).length : Int) + 1))
        ≤ ((swimlane db (statusArg.getD client.status) client.id).length : Int) + 1 := by
      omega
    constructor
    · exact laneDense_dest db client (statusArg.getD client.status) _ hnd hc hb1 hb2
    · by_cases hch : statusArg.getD client.status = client.status
      · have hd := laneDense_dest db client (statusArg.getD client.status) _ hnd hc hb1 hb2
        convert hd using 2
        exact hch.symm
      · exact laneDense_source db client (statusArg.getD client.status) _ hnd hch

/-- Witness for C1 at a concrete snapshot and request (Scenario C of the spec:
move client 1 to `in-progress` with explicit priority 1). -/
theorem C1_invariant_preservation_witness :
    (([⟨1, "backlog", 1, "A"⟩, ⟨2, "backlog", 2, "B"⟩, ⟨3, "backlog", 3, "C"⟩,
        ⟨4, "in-progress", 1, "D"⟩] : List Client).map Client.id).Nodup
    ∧ (∀ s ∈ ([⟨1, "backlog", 1, "A"⟩, ⟨2, "backlog", 2, "B"⟩, ⟨3, "backlog", 3, "C"⟩,
        ⟨4, "in-progress", 1, "D"⟩] : List Client).map Client.status,
        laneDense [⟨1, "backlog", 1, "A"⟩, ⟨2, "backlog", 2, "B"⟩, ⟨3, "backlog", 3, "C"⟩,
          ⟨4, "in-progress", 1, "D"⟩] s)
    ∧ laneDense (putHandler [⟨1, "backlog", 1, "A"⟩, ⟨2, "backlog", 2, "B"⟩,
        ⟨3, "backlog", 3, "C"⟩, ⟨4, "in-progress", 1, "D"⟩]
        (some 1) (some "in-progress") (some 1)).state "in-progress"
    ∧ laneDense (putHandler [⟨1, "backlog", 1, "A"⟩, ⟨2, "backlog", 2, "B"⟩,
        ⟨3, "backlog", 3, "C"⟩, ⟨4, "in-progress", 1, "D"⟩]
        (some 1) (some "in-progress") (some 1)).state "backlog" := by
  have h := C1_invariant_preservation
    [⟨1, "backlog", 1, "A"⟩, ⟨2, "backlog", 2, "B"⟩, ⟨3, "backlog", 3, "C"⟩,
      ⟨4, "in-progress", 1, "D"⟩]
    ⟨1, "backlog", 1, "A"⟩ (some "in-progress") (some 1)
    (by decide) (by decide) (by decide)
    (Or.inr ⟨"in-progress", rfl, by decide⟩) (Or.inr ⟨1, rfl, by decide⟩)
  exact ⟨by decide, by decide, h.1, h.2⟩

/-- C6: issuing a move request whose status and priority equal the target's
current status and priority, on a snapshot satisfying the invariant, leaves
the state identical to the input (and responds with it). -/
theorem C6_idempotent_fixed_point (db : List Client) (client : Client)
    (hnd : (db.map Client.id).Nodup) (hc : client ∈ db)
    (hinv : ∀ s ∈ db.map Client.status, laneDense db s) :
    putHandler db (some client.id) (some client.status) (some client.priority)
      = ⟨[Resp.ok db], db, false⟩ := by
  have hdense0 : laneDense db client.status :=
    hinv client.status (List.mem_map_of_mem Client.status hc)
  rw [putHandler_some_priority db client hnd hc (some client.status) client.priority]
  rcases target_priority_bounds db client hnd hc hdense0 with ⟨hb1, hb2⟩
  have hnp : max 1 (min client.priority
      (((swimlane db ((some client.status).getD client.status) client.id).length : Int) + 1))
      = client.priority := by
    show max 1 (min client.priority
      (((swimlane db client.status client.id).length : Int) + 1)) = client.priority
    omega
  rw [hnp]
  rw [show (some client.status).getD client.status = client.status from rfl]
  rw [applyAssigns_emitted db client client.status client.priority hnd,
    finalClient_self db client hnd hc hdense0]

/-- Witness for C6: re-requesting client 2's current position (backlog, 2) on
the scenario snapshot changes nothing. -/
theorem C6_idempotent_fixed_point_witness :
    (∀ s ∈ ([⟨1, "backlog", 1, "A"⟩, ⟨2, "backlog", 2, "B"⟩, ⟨3, "backlog", 3, "C"⟩,
        ⟨4, "in-progress", 1, "D"⟩] : List Client).map Client.status,
        laneDense [⟨1, "backlog", 1, "A"⟩, ⟨2, "backlog", 2, "B"⟩, ⟨3, "backlog", 3, "C"⟩,
          ⟨4, "in-progress", 1, "D"⟩] s)
    ∧ putHandler [⟨1, "backlog", 1, "A"⟩, ⟨2, "backlog", 2, "B"⟩, ⟨3, "backlog", 3, "C"⟩,
        ⟨4, "in-progress", 1, "D"⟩] (some 2) (some "backlog") (some 2)
      = ⟨[Resp.ok [⟨1, "backlog", 1, "A"⟩, ⟨2, "backlog", 2, "B"⟩, ⟨3, "backlog", 3, "C"⟩,
          ⟨4, "in-progress", 1, "D"⟩]],
         [⟨1, "backlog", 1, "A"⟩, ⟨2, "backlog", 2, "B"⟩, ⟨3, "backlog", 3, "C"⟩,
          ⟨4, "in-progress", 1, "D"⟩], false⟩ :=
  ⟨by decide,
    C6_idempotent_fixed_point
      [⟨1, "backlog", 1, "A"⟩, ⟨2, "backlog", 2, "B"⟩, ⟨3, "backlog", 3, "C"⟩,
        ⟨4, "in-progress", 1, "D"⟩]
      ⟨2, "backlog", 2, "B"⟩ (by decide) (by decide) (by decide)⟩

/-- C10: supplying only the target's current status (no priority), on a
snapshot satisfying the invariant, is not short-circuited — the insertion loop
runs — yet the final state is identical to the input. -/
theorem C10_same_status_identity (db : List Client) (client : Client)
    (hnd : (db.map Client.id).Nodup) (hc : client ∈ db)
    (hinv : ∀ s ∈ db.map Client.status, laneDense db s) :
    putHandler db (some client.id) (some client.status) none
      = ⟨[Resp.ok db], db, false⟩ := by
  have hdense0 : laneDense db client.status :=
    hinv client.status (List.mem_map_of_mem Client.status hc)
  rw [putHandler_status_none db client hnd hc client.status]
  have hnp : (if client.status ≠ client.status
      then ((swimlane db client.status client.id).length : Int) + 1
      else client.priority) = client.priority := if_neg (fun h => h rfl)
  rw [hnp, applyAssigns_emitted db client client.status client.priority hnd,
    finalClient_self db client hnd hc hdense0]

/-- Witness for C10: re-sending client 2's current status with no priority on
the scenario snapshot changes nothing. -/
theorem C10_same_status_identity_witness :
    (∀ s ∈ ([⟨1, "backlog", 1, "A"⟩, ⟨2, "backlog", 2, "B"⟩, ⟨3, "backlog", 3, "C"⟩,
        ⟨4, "in-progress", 1, "D"⟩] : List Client).map Client.status,
        laneDense [⟨1, "backlog", 1, "A"⟩, ⟨2, "backlog", 2, "B"⟩, ⟨3, "backlog", 3, "C"⟩,
          ⟨4, "in-progress", 1, "D"⟩] s)
    ∧ putHandler [⟨1, "backlog", 1, "A"⟩, ⟨2, "backlog", 2, "B"⟩, ⟨3, "backlog", 3, "C"⟩,
        ⟨4, "in-progress", 1, "D"⟩] (some 2) (some "backlog") none
      = ⟨[Resp.ok [⟨1, "backlog", 1, "A"⟩, ⟨2, "backlog", 2, "B"⟩, ⟨3, "backlog", 3, "C"⟩,
          ⟨4, "in-progress", 1, "D"⟩]],
         [⟨1, "backlog", 1, "A"⟩, ⟨2, "backlog", 2, "B"⟩, ⟨3, "backlog", 3, "C"⟩,
          ⟨4, "in-progress", 1, "D"⟩], false⟩ :=
  ⟨by decide,
    C10_same_status_identity
      [⟨1, "backlog", 1, "A"⟩, ⟨2, "backlog", 2, "B"⟩, ⟨3, "backlog", 3, "C"⟩,
        ⟨4, "in-progress", 1, "D"⟩]
      ⟨2, "backlog", 2, "B"⟩ (by decide) (by decide) (by decide)⟩

/-- C2: a provided priority `p` (every integer passes validation) is used for
placement clamped into `[1, len(targetSwimlane) + 1]`, where the target
swimlane excludes the target client: below-range values yield 1, above-range
values yield `len + 1`, and in-range values are used unchanged. -/
theorem C2_priority_clamped (db : List Client) (client : Client)
    (statusArg : Option String) (p : Int)
    (hnd : (db.map Client.id).Nodup) (hc : client ∈ db) :
    (∀ c ∈ (putHandler db (some client.id) statusArg (some p)).state, c.id = client.id →
      c.priority = max 1 (min p
        (((swimlane db (statusArg.getD client.status) client.id).length : Int) + 1)))
    ∧ (p < 1 → max 1 (min p
        (((swimlane db (statusArg.getD client.status) client.id).length : Int) + 1)) = 1)
    ∧ (p > ((swimlane db (statusArg.getD client.status) client.id).length : Int) + 1 →
        max 1 (min p (((swimlane db (statusArg.getD client.status) client.id).length : Int) + 1))
          = ((swimlane db (statusArg.getD client.status) client.id).length : Int) + 1)
    ∧ (1 ≤ p → p ≤ ((swimlane db (statusArg.getD client.status) client.id).length : Int) + 1 →
        max 1 (min p
          (((swimlane db (statusArg.getD client.status) client.id).length : Int) + 1)) = p) := by
  refine ⟨?_, by omega, by omega, by omega⟩
  intro c hmem hid
  rw [putHandler_some_priority db client hnd hc statusArg p] at hmem
  have hmem2 : c ∈ applyAssigns db (emittedAssigns db client (statusArg.getD client.status)
      (max 1 (min p
        (((swimlane db (statusArg.getD client.status) client.id).length : Int) + 1)))) := hmem
  have hlook := final_state_lookup db client _ _ hnd hc hmem2 hid
  rw [hlook, finalClient_target]

/-- Witness for C2 at Scenario D: requesting priority 99 into a 2-member
destination lane clamps to 3. -/
theorem C2_priority_clamped_witness :
    ((99 : Int) > ((swimlane [⟨1, "backlog", 1, "A"⟩, ⟨2, "in-progress", 1, "D"⟩,
        ⟨3, "in-progress", 2, "E"⟩] "in-progress" 1).length : Int) + 1)
    ∧ max 1 (min 99 (((swimlane [⟨1, "backlog", 1, "A"⟩, ⟨2, "in-progress", 1, "D"⟩,
        ⟨3, "in-progress", 2, "E"⟩] "in-progress" 1).length : Int) + 1))
      = ((swimlane [⟨1, "backlog", 1, "A"⟩, ⟨2, "in-progress", 1, "D"⟩,
        ⟨3, "in-progress", 2, "E"⟩] "in-progress" 1).length : Int) + 1
    ∧ ((swimlane [⟨1, "backlog", 1, "A"⟩, ⟨2, "in-progress", 1, "D"⟩,
        ⟨3, "in-progress", 2, "E"⟩] "in-progress" 1).length : Int) + 1 = 3 := by
  have h := C2_priority_clamped
    [⟨1, "backlog", 1, "A"⟩, ⟨2, "in-progress", 1, "D"⟩, ⟨3, "in-progress", 2, "E"⟩]
    ⟨1, "backlog", 1, "A"⟩ (some "in-progress") 99 (by decide) (by decide)
  exact ⟨by decide, h.2.2.1 (by decide), by decide⟩

/-- C3 is refuted by the code: the PUT handler never validates the provided
status against the fixed enumeration.  At the failing input below the status
"archived" lies outside the enumeration, yet the handler emits assignments,
moves the client into a fresh "archived" swimlane, compacts the vacated lane,
and responds 200 with the changed snapshot instead of signalling
InvalidStatus. -/
theorem C3_unknown_status_accepted :
    "archived" ∉ statusEnum
    ∧ putHandler [⟨1, "backlog", 1, "A"⟩, ⟨2, "backlog", 2, "B"⟩]
        (some 1) (some "archived") none
      = ⟨[Resp.ok [⟨1, "archived", 1, "A"⟩, ⟨2, "backlog", 1, "B"⟩]],
         [⟨1, "archived", 1, "A"⟩, ⟨2, "backlog", 1, "B"⟩], false⟩
    ∧ ([⟨1, "archived", 1, "A"⟩, ⟨2, "backlog", 1, "B"⟩] : List Client)
      ≠ [⟨1, "backlog", 1, "A"⟩, ⟨2, "backlog", 2, "B"⟩] := by
  refine ⟨by decide, by decide, by decide⟩

/-- C4 as stated is refuted by the code: `validatePriority` rejects only the
number NaN, so the non-positive priority 0 passes validation; the handler
clamps it to 1, emits assignments, and responds 200 with a changed snapshot
instead of signalling InvalidPriority and aborting. -/
theorem C4_priority_zero_not_rejected :
    validatePriority 0 = none
    ∧ putHandler [⟨1, "backlog", 1, "A"⟩, ⟨2, "backlog", 2, "B"⟩] (some 2) none (some 0)
      = ⟨[Resp.ok [⟨1, "backlog", 2, "A"⟩, ⟨2, "backlog", 1, "B"⟩]],
         [⟨1, "backlog", 2, "A"⟩, ⟨2, "backlog", 1, "B"⟩], false⟩
    ∧ ([⟨1, "backlog", 2, "A"⟩, ⟨2, "backlog", 1, "B"⟩] : List Client)
      ≠ [⟨1, "backlog", 1, "A"⟩, ⟨2, "backlog", 2, "B"⟩] := by
  refine ⟨rfl, by decide, by decide⟩

/-- C4 as amended: only a NaN-valued priority would signal InvalidPriority
(unreachable for the integer-valued priorities a JSON body can carry); every
integer priority passes validation, and a zero or negative priority is clamped
to an effective priority of 1, with the reorder completing and emitting
assignments. -/
theorem C4_amended_nonpositive_clamped (db : List Client) (client : Client) (p : Int)
    (hnd : (db.map Client.id).Nodup) (hc : client ∈ db) (hp : p ≤ 0) :
    validatePriority p = none
    ∧ (putHandler db (some client.id) none (some p)).crashed = false
    ∧ (∃ cs, (putHandler db (some client.id) none (some p)).sent = [Resp.ok cs])
    ∧ (∀ c ∈ (putHandler db (some client.id) none (some p)).state, c.id = client.id →
        c.priority = 1) := by
  refine ⟨rfl, ?_, ?_, ?_⟩
  · simp [putHandler_some_priority db client hnd hc none p]
  · rw [putHandler_some_priority db client hnd hc none p]
    exact ⟨_, rfl⟩
  · intro c hmem hid
    rw [putHandler_some_priority db client hnd hc none p] at hmem
    have hmem2 : c ∈ applyAssigns db (emittedAssigns db client
        ((none : Option String).getD client.status)
        (max 1 (min p
          (((swimlane db ((none : Option String).getD client.status) client.id).length : Int)
            + 1)))) := hmem
    have hlook := final_state_lookup db client _ _ hnd hc hmem2 hid
    rw [hlook, finalClient_target]
    show max 1 (min p (((swimlane db client.status client.id).length : Int) + 1)) = 1
    omega

/-- Witness for the amended C4: requesting priority 0 for client 2 moves it to
priority 1. -/
theorem C4_amended_nonpositive_clamped_witness :
    validatePriority 0 = none
    ∧ (∀ c ∈ (putHandler [⟨1, "backlog", 1, "A"⟩, ⟨2, "backlog", 2, "B"⟩]
        (some 2) none (some 0)).state, c.id = 2 → c.priority = 1) := by
  have h := C4_amended_nonpositive_clamped [⟨1, "backlog", 1, "A"⟩, ⟨2, "backlog", 2, "B"⟩]
    ⟨2, "backlog", 2, "B"⟩ 0 (by decide) (by decide) (by decide)
  exact ⟨rfl, h.2.2.2⟩

/-- C5: a non-numeric path id (parseInt yields NaN, modelled `none`) or an id
matching no client makes `validateId` fail: the handler sends the 400
validation error first and issues no update statement — the stored state is
unchanged.  (The source's missing `return` then either double-sends or throws
on the missing client, still before any write.) -/
theorem C5_invalid_id_rejected (db : List Client) (rawId : Option Int)
    (statusArg : Option String) (priorityArg : Option Int)
    (hbad : rawId = none ∨ ∃ i, rawId = some i ∧ ∀ c ∈ db, c.id ≠ i) :
    (putHandler db rawId statusArg priorityArg).state = db
    ∧ ∃ lm, (putHandler db rawId statusArg priorityArg).sent.head?
        = some (Resp.err "Invalid id provided." lm) := by
  rcases hbad with rfl | ⟨i, rfl, hni⟩
  · refine ⟨?_, "Id can only be integer.", ?_⟩
    · cases statusArg <;> cases priorityArg <;> rfl
    · cases statusArg <;> cases priorityArg <;> rfl
  · have hany : (db.any fun c => c.id == i) = false := by
      rw [Bool.eq_false_iff]
      intro hany
      rcases List.any_eq_true.mp hany with ⟨c, hcm, hcv⟩
      exact hni c hcm (by simpa using hcv)
    have hfind : db.find? (fun c => c.id == i) = none := by
      apply List.find?_eq_none.mpr
      intro c hcm
      simp only [beq_iff_eq]
      exact hni c hcm
    refine ⟨?_, "Cannot find client with that id.", ?_⟩
    · cases statusArg <;> cases priorityArg <;> simp [putHandler, validateId, hany, hfind]
    · cases statusArg <;> cases priorityArg <;> simp [putHandler, validateId, hany, hfind]

/-- Witness for C5: id 99 identifies no client; the state is unchanged and the
first response is the 400 error. -/
theorem C5_invalid_id_rejected_witness :
    (∀ c ∈ ([⟨1, "backlog", 1, "A"⟩, ⟨2, "backlog", 2, "B"⟩] : List Client), c.id ≠ 99)
    ∧ (putHandler [⟨1, "backlog", 1, "A"⟩, ⟨2, "backlog", 2, "B"⟩]
        (some 99) (some "complete") none).state
      = [⟨1, "backlog", 1, "A"⟩, ⟨2, "backlog", 2, "B"⟩]
    ∧ ∃ lm, (putHandler [⟨1, "backlog", 1, "A"⟩, ⟨2, "backlog", 2, "B"⟩]
        (some 99) (some "complete") none).sent.head?
      = some (Resp.err "Invalid id provided." lm) := by
  have h := C5_invalid_id_rejected [⟨1, "backlog", 1, "A"⟩, ⟨2, "backlog", 2, "B"⟩]
    (some 99) (some "complete") none (Or.inr ⟨99, rfl, by decide⟩)
  exact ⟨by decide, h.1, h.2⟩

/-- C7: a move that changes the target's status with no priority supplied
places the target at the end of the destination lane (rank `len + 1`), and the
vacated source lane is compacted to dense ranks in ascending order of prior
priority (the relative order of any two former lane-mates is preserved);
Scenario B holds concretely. -/
theorem C7_move_to_end_and_compact (db : List Client) (client : Client) (s : String)
    (hnd : (db.map Client.id).Nodup) (hc : client ∈ db) (hne : s ≠ client.status) :
    ((putHandler db (some client.id) (some s) none).crashed = false
    ∧ (∀ c ∈ (putHandler db (some client.id) (some s) none).state, c.id = client.id →
        c = { client with
              status := s
              priority := ((swimlane db s client.id).length : Int) + 1 })
    ∧ laneDense (putHandler db (some client.id) (some s) none).state client.status
    ∧ (∀ c ∈ swimlane db client.status client.id, ∀ d ∈ swimlane db client.status client.id,
        c.priority < d.priority →
        ∀ c2 ∈ (putHandler db (some client.id) (some s) none).state, c2.id = c.id →
        ∀ d2 ∈ (putHandler db (some client.id) (some s) none).state, d2.id = d.id →
          c2.priority < d2.priority))
    ∧ putHandler [⟨1, "backlog", 1, "A"⟩, ⟨2, "backlog", 2, "B"⟩, ⟨3, "backlog", 3, "C"⟩,
        ⟨4, "in-progress", 1, "D"⟩] (some 1) (some "in-progress") none
      = ⟨[Resp.ok [⟨1, "in-progress", 2, "A"⟩, ⟨2, "backlog", 1, "B"⟩, ⟨3, "backlog", 2, "C"⟩,
          ⟨4, "in-progress", 1, "D"⟩]],
         [⟨1, "in-progress", 2, "A"⟩, ⟨2, "backlog", 1, "B"⟩, ⟨3, "backlog", 2, "C"⟩,
          ⟨4, "in-progress", 1, "D"⟩], false⟩ := by
  have hred := putHandler_status_none db client hnd hc s
  have hnp : (if s ≠ client.status then ((swimlane db s client.id).length : Int) + 1
      else client.priority) = ((swimlane db s client.id).length : Int) + 1 := if_pos hne
  rw [hnp] at hred
  refine ⟨⟨?_, ?_, ?_, ?_⟩, by decide⟩
  · rw [hred]
  · intro c hmem hid
    rw [hred] at hmem
    have hmem2 : c ∈ applyAssigns db (emittedAssigns db client s
        (((swimlane db s client.id).length : Int) + 1)) := hmem
    have hlook := final_state_lookup db client _ _ hnd hc hmem2 hid
    rw [hlook, finalClient_target]
  · rw [hred]
    show laneDense (applyAssigns db (emittedAssigns db client s
        (((swimlane db s client.id).length : Int) + 1))) client.status
    rw [applyAssigns_emitted db client s (((swimlane db s client.id).length : Int) + 1) hnd]
    exact laneDense_source db client s _ hnd hne
  · intro c hcm d hdm hpr c2 hc2m hc2id d2 hd2m hd2id
    rw [hred] at hc2m hd2m
    have hc2m2 : c2 ∈ applyAssigns db (emittedAssigns db client s
        (((swimlane db s client.id).length : Int) + 1)) := hc2m
    have hd2m2 : d2 ∈ applyAssigns db (emittedAssigns db client s
        (((swimlane db s client.id).length : Int) + 1)) := hd2m
    have h1 := final_state_lookup db client _ _ hnd (mem_swimlane.mp hcm).1 hc2m2 hc2id
    have h2 := final_state_lookup db client _ _ hnd (mem_swimlane.mp hdm).1 hd2m2 hd2id
    have hidx := sort_indexOf_lt ((nodup_id_swimlane hnd client.status client.id).of_map)
      hcm hdm hpr
    rw [h1, h2, finalClient_source_mem db client s _ hne hcm,
      finalClient_source_mem db client s _ hne hdm]
    show ((sortByPriority (swimlane db client.status client.id)).indexOf c : Int) + 1
        < ((sortByPriority (swimlane db client.status client.id)).indexOf d : Int) + 1
    omega

/-- Witness for C7: moving client 1 out of backlog leaves the backlog lane
dense. -/
theorem C7_move_to_end_and_compact_witness :
    (("in-progress" : String) ≠ "backlog")
    ∧ laneDense (putHandler [⟨1, "backlog", 1, "A"⟩, ⟨2, "backlog", 2, "B"⟩,
        ⟨3, "backlog", 3, "C"⟩, ⟨4, "in-progress", 1, "D"⟩]
        (some 1) (some "in-progress") none).state "backlog" := by
  have h := C7_move_to_end_and_compact
    [⟨1, "backlog", 1, "A"⟩, ⟨2, "backlog", 2, "B"⟩, ⟨3, "backlog", 3, "C"⟩,
      ⟨4, "in-progress", 1, "D"⟩] ⟨1, "backlog", 1, "A"⟩ "in-progress"
    (by decide) (by decide) (by decide)
  exact ⟨by decide, h.1.2.2.1⟩

/-- C8: under the dense-unique precondition on the destination lane (target
excluded), the implemented insertion — sort by priority, assign provisional
ranks 1, 2, 3, ..., increment any rank at or above the effective priority —
produces exactly the lane given by the spec's alternative formulation: shift
every member whose current rank is at least the effective priority up by
one. -/
theorem C8_insertion_equals_shift (lane : List Client) (p : Int)
    (hnd : (lane.map Client.id).Nodup)
    (hdense : denseList (lane.map Client.priority)) :
    applyAssigns lane (insertionAssigns lane p) = shiftInsertSpec lane p := by
  have hnodup : lane.Nodup := hnd.of_map
  have hsortnd : (sortByPriority lane).Nodup :=
    (sortByPriority_perm lane).nodup_iff.mpr hnodup
  have hd2 : (lane.map Client.priority).Perm
      ((List.range lane.length).map (fun i : Nat => (i : Int) + 1)) := by
    have h : (lane.map Client.priority).Perm
        ((List.range (lane.map Client.priority).length).map
          (fun i : Nat => (i : Int) + 1)) := hdense
    rwa [List.length_map] at h
  have hsorted_eq : (sortByPriority lane).map Client.priority
      = (List.range (sortByPriority lane).length).map (fun i : Nat => (i : Int) + 1) := by
    rw [(sortByPriority_perm lane).length_eq]
    exact sortByPriority_map_eq lane _ hd2 (sorted_map_denseVals lane.length)
  have hval := map_eq_range_map hsorted_eq hsortnd
  rw [applyAssigns_eq_map]
  unfold shiftInsertSpec
  apply List.map_congr_left
  intro c hcm
  show applyToClient c (insertionAssigns lane p)
    = if c.priority ≥ p then { c with priority := c.priority + 1 } else c
  have hcs : c ∈ sortByPriority lane := mem_sortByPriority.mpr hcm
  have hnds : ((sortByPriority lane).map Client.id).Nodup :=
    ((sortByPriority_perm lane).map Client.id).nodup_iff.mpr hnd
  have happ : applyToClient c (insertionAssigns lane p)
      = { c with priority := insRank p ((sortByPriority lane).indexOf c) } := by
    have h := applyToClient_rankAssigns (insRank p) 0 (sortByPriority lane) hnds c hcs
    rwa [Nat.zero_add] at h
  rw [happ]
  have hpri := hval c hcs
  unfold insRank
  by_cases hge : c.priority ≥ p
  · have hc1 : ((sortByPriority lane).indexOf c : Int) + 1 ≥ p := by omega
    rw [if_pos hc1, if_pos hge]
    congr 1
    omega
  · have hc1 : ¬(((sortByPriority lane).indexOf c : Int) + 1 ≥ p) := by omega
    rw [if_neg hc1, if_neg hge]
    rw [← hpri]

/-- Witness for C8 at a two-member dense lane and effective priority 1. -/
theorem C8_insertion_equals_shift_witness :
    denseList (([⟨1, "backlog", 1, "A"⟩, ⟨2, "backlog", 2, "B"⟩] : List Client).map
      Client.priority)
    ∧ applyAssigns [⟨1, "backlog", 1, "A"⟩, ⟨2, "backlog", 2, "B"⟩]
        (insertionAssigns [⟨1, "backlog", 1, "A"⟩, ⟨2, "backlog", 2, "B"⟩] 1)
      = shiftInsertSpec [⟨1, "backlog", 1, "A"⟩, ⟨2, "backlog", 2, "B"⟩] 1 :=
  ⟨by decide, C8_insertion_equals_shift [⟨1, "backlog", 1, "A"⟩, ⟨2, "backlog", 2, "B"⟩] 1
    (by decide) (by decide)⟩

/-- C9: a request processed to completion creates no client and deletes no
client, never changes an id or the opaque descriptive field, and every client
belonging to neither the source nor the destination swimlane keeps its whole
record — status and priority included — unchanged. -/
theorem C9_frame (db : List Client) (client : Client)
    (statusArg : Option String) (priorityArg : Option Int)
    (hnd : (db.map Client.id).Nodup) (hc : client ∈ db) :
    (putHandler db (some client.id) statusArg priorityArg).crashed = false
    ∧ (putHandler db (some client.id) statusArg priorityArg).state.map
        (fun c => (c.id, c.name))
      = db.map (fun c => (c.id, c.name))
    ∧ (∀ c ∈ db, c.status ≠ client.status → c.status ≠ statusArg.getD client.status →
        c ∈ (putHandler db (some client.id) statusArg priorityArg).state) := by
  rcases priorityArg with _ | p
  · rcases statusArg with _ | s
    · exact ⟨rfl, rfl, fun c hcm _ _ => hcm⟩
    · have hred := putHandler_status_none db client hnd hc s
      refine ⟨?_, ?_, ?_⟩
      · rw [hred]
      · rw [hred, applyAssigns_emitted db client s
          (if s ≠ client.status then ((swimlane db s client.id).length : Int) + 1
           else client.priority) hnd]
        exact final_map_id_name db client s _
      · intro c hcm h1 h2
        rw [hred]
        exact untouched_mem db client s _ hnd hc hcm h1 h2
  · have hred := putHandler_some_priority db client hnd hc statusArg p
    refine ⟨?_, ?_, ?_⟩
    · rw [hred]
    · rw [hred, applyAssigns_emitted db client (statusArg.getD client.status)
        (max 1 (min p
          (((swimlane db (statusArg.getD client.status) client.id).length : Int) + 1))) hnd]
      exact final_map_id_name db client _ _
    · intro c hcm h1 h2
      rw [hred]
      exact untouched_mem db client (statusArg.getD client.status) _ hnd hc hcm h1 h2

/-- Witness for C9: moving client 1 to in-progress keeps ids and names
positionally identical and leaves the complete-lane client untouched. -/
theorem C9_frame_witness :
    (putHandler [⟨1, "backlog", 1, "A"⟩, ⟨2, "in-progress", 1, "D"⟩,
        ⟨3, "complete", 1, "E"⟩] (some 1) (some "in-progress") none).state.map
        (fun c => (c.id, c.name))
      = ([⟨1, "backlog", 1, "A"⟩, ⟨2, "in-progress", 1, "D"⟩,
          ⟨3, "complete", 1, "E"⟩] : List Client).map (fun c => (c.id, c.name))
    ∧ (⟨3, "complete", 1, "E"⟩ : Client)
      ∈ (putHandler [⟨1, "backlog", 1, "A"⟩, ⟨2, "in-progress", 1, "D"⟩,
          ⟨3, "complete", 1, "E"⟩] (some 1) (some "in-progress") none).state := by
  have h := C9_frame [⟨1, "backlog", 1, "A"⟩, ⟨2, "in-progress", 1, "D"⟩,
      ⟨3, "complete", 1, "E"⟩] ⟨1, "backlog", 1, "A"⟩ (some "in-progress") none
    (by decide) (by decide)
  exact ⟨h.2.1, h.2.2 ⟨3, "complete", 1, "E"⟩ (by decide) (by decide) (by decide)⟩

end Shiptivitas
